import Mathlib

/-!
Verification of the transaction-processing pipeline in
src/process_transactions.py against its specification.

The script is a single linear pandas pipeline (function main):
  line 22   df['date'] = pd.to_datetime(df['date'], errors='coerce')
  line 30   df['date'] = pd.to_datetime(df['date'], format='mixed', dayfirst=True, errors='coerce')
  line 44   df.loc[null_dates, 'date'] = pd.to_datetime(df.loc[null_dates, 'date'], errors='coerce')
  line 58   df = df.dropna(subset=['date', 'amount', 'type'])
  line 68   df['type'] = df['type'].str.strip().str.title()
  line 69   df['signed_amount'] = np.where(df['type'].eq('Expense'), -df['amount'].abs(), df['amount'].abs())
  line 76   dtype guard, lines 77-86 re-coercion / abort path
  lines 91-94  year / month / month_name / day_of_week features
  line 97   df = df.sort_values('date')          (default kind='quicksort')
  line 100  df['running_balance'] = df['signed_amount'].cumsum()
  lines 104-110 monthly groupby aggregation
  lines 122-134 output files

Modelling conventions:
* A data row is a record of the three semantically relevant columns
  (date, amount, type); missing cells (NaN) are Option.none.
* Amounts are values of an arbitrary linearly ordered additive commutative
  group, written exactly; float64 rounding is outside the model, the claims
  under verification are the algebraic ones.  Witnesses instantiate the
  amount type with the integers.
* pandas row labels (the RangeIndex assigned by read_csv and preserved by
  every subsequent operation) are modelled by the idx field of each row.
* pd.to_datetime with errors='coerce' on a string column is modelled for the
  textual date formats exercised by the specification (ISO dashes and
  slash-separated dates with a four-digit year); every other value coerces
  to the unresolved marker none (NaT).  On a column that already has
  datetime dtype, pd.to_datetime returns the column unchanged, whatever
  format/dayfirst arguments are passed; the DateCol type records the dtype
  so that this behaviour is part of the model.
* df.sort_values('date') with the default kind='quicksort' is modelled by
  numpy's introsort-based argsort (npysort/quicksort.c.src: aquicksort_),
  including the median-of-three partition, the switch to insertion sort for
  subranges of at most 16 elements (SMALL_QUICKSORT = 15), the shared depth
  limit and the heapsort fallback.  This sort is not stable.
-/

/-! ## Calendar dates -/

/-- Resolved calendar date (pandas Timestamp at midnight). -/
structure Date where
  y : Nat
  m : Nat
  d : Nat
deriving DecidableEq, Repr

/-- Gregorian leap-year test. -/
def isLeap (y : Nat) : Bool := y % 4 = 0 && (y % 100 ≠ 0 || y % 400 = 0)

/-- Number of days of month m in year y. -/
def daysInMonth (y m : Nat) : Nat :=
  if m = 2 then (if isLeap y then 29 else 28)
  else if m = 4 || m = 6 || m = 9 || m = 11 then 30
  else 31

/-- Calendar validity as enforced by pandas timestamp construction
(month 1-12, day within the month; years handled by the model are bounded
by the four-digit textual formats). -/
def validDate (dt : Date) : Bool :=
  1 ≤ dt.m && dt.m ≤ 12 && 1 ≤ dt.d && dt.d ≤ daysInMonth dt.y dt.m
    && 1 ≤ dt.y && dt.y ≤ 9999

/-- Order embedding of calendar dates into Nat; on valid dates (m ≤ 12,
d ≤ 31) it is strictly monotone for the lexicographic year/month/day order,
so it induces the same order as the int64 nanosecond representation that
numpy actually sorts. -/
def dateKey (dt : Date) : Nat := dt.y * 512 + dt.m * 32 + dt.d

/-- English month name, as produced by strftime('%B'). -/
def monthName : Nat → String
  | 1 => "January" | 2 => "February" | 3 => "March" | 4 => "April"
  | 5 => "May" | 6 => "June" | 7 => "July" | 8 => "August"
  | 9 => "September" | 10 => "October" | 11 => "November" | 12 => "December"
  | _ => ""

/-- Day-of-week index (0 = Sunday) by Sakamoto's method. -/
def dayOfWeekIdx (dt : Date) : Nat :=
  let t := [0, 3, 2, 5, 0, 3, 5, 1, 4, 6, 2, 4]
  let y := if dt.m < 3 then dt.y - 1 else dt.y
  (y + y / 4 + y / 400 + t.getD (dt.m - 1) 0 + dt.d - y / 100) % 7

/-- English weekday name, as produced by Series.dt.day_name(). -/
def dayName (dt : Date) : String :=
  ["Sunday", "Monday", "Tuesday", "Wednesday", "Thursday", "Friday",
    "Saturday"].getD (dayOfWeekIdx dt) ""

/-! ## Textual date parsing (model of pd.to_datetime on strings) -/

/-- Python str.strip(): remove leading and trailing whitespace. -/
def pyStrip (s : String) : String :=
  ((s.toList.dropWhile Char.isWhitespace).reverse.dropWhile
    Char.isWhitespace).reverse.asString

/-- Python str.title(): first letter of every run of letters is upper-cased,
the remaining letters lower-cased (ASCII). -/
def pyTitleAux : Bool → List Char → List Char
  | _, [] => []
  | prevAlpha, c :: cs =>
    if c.isAlpha then
      (if prevAlpha then c.toLower else c.toUpper) :: pyTitleAux true cs
    else c :: pyTitleAux false cs

/-- Python str.title() on a string. -/
def pyTitle (s : String) : String := (pyTitleAux false s.toList).asString

/-- Digit-string to number; none if empty or not all digits. -/
def parseNatDigits (cs : List Char) : Option Nat :=
  if cs ≠ [] && cs.all Char.isDigit then
    some (cs.foldl (fun a c => a * 10 + (c.toNat - 48)) 0)
  else none

/-- Split a character list on a separator character (the splitting part of
the textual parse, written structurally). -/
def splitOnCharAux (sep : Char) : List Char → List Char → List (List Char)
  | [], acc => [acc.reverse]
  | x :: xs, acc =>
    if x = sep then acc.reverse :: splitOnCharAux sep xs []
    else splitOnCharAux sep xs (x :: acc)

/-- Fields of a character list between occurrences of the separator. -/
def splitOnChar (sep : Char) (cs : List Char) : List (List Char) :=
  splitOnCharAux sep cs []

/-- ISO dash format YYYY-M-D (four-digit year, one- or two-digit month and
day), validated against the calendar; anything else fails. -/
def parseISO (s : String) : Option Date :=
  match splitOnChar '-' s.toList with
  | [ys, ms, ds] =>
    match parseNatDigits ys, parseNatDigits ms, parseNatDigits ds with
    | some y, some m, some d =>
      if ys.length = 4 && 1 ≤ ms.length && ms.length ≤ 2
          && 1 ≤ ds.length && ds.length ≤ 2 && validDate ⟨y, m, d⟩ then
        some ⟨y, m, d⟩
      else none
    | _, _, _ => none
  | _ => none

/-- Slash format A/B/YYYY as resolved by dateutil: without dayfirst the
first field is the month whenever it can be (A ≤ 12), otherwise it is the
day; with dayfirst=True the first field is the day whenever the second can
be the month (B ≤ 12).  The chosen reading is then validated against the
calendar; there is no second reading if the chosen one is invalid. -/
def parseSlash (dayfirst : Bool) (s : String) : Option Date :=
  match splitOnChar '/' s.toList with
  | [as, bs, ys] =>
    match parseNatDigits as, parseNatDigits bs, parseNatDigits ys with
    | some a, some b, some y =>
      if ys.length = 4 && 1 ≤ as.length && as.length ≤ 2
          && 1 ≤ bs.length && bs.length ≤ 2 then
        let dt : Date :=
          if dayfirst then (if b ≤ 12 then ⟨y, b, a⟩ else ⟨y, a, b⟩)
          else (if a ≤ 12 then ⟨y, a, b⟩ else ⟨y, b, a⟩)
        if validDate dt then some dt else none
      else none
    | _, _, _ => none
  | _ => none

/-- Scalar model of pd.to_datetime(. , errors='coerce') on one raw string:
strip, then try the ISO reading, then the slash reading with the given
dayfirst preference; unparseable values coerce to none (NaT). -/
def toDatetimeStr (dayfirst : Bool) (s : String) : Option Date :=
  let t := pyStrip s
  match parseISO t with
  | some dt => some dt
  | none => parseSlash dayfirst t

/-! ## The date column and the resolution chain (lines 22-54) -/

/-- A pandas column of raw date cells (dtype object, missing cells none) or
of coerced datetimes (dtype datetime64, NaT cells none).  The constructor
records the dtype, which is what the guard at line 76
(pd.api.types.is_datetime64_any_dtype) inspects. -/
inductive DateCol where
  | raw (vals : List (Option String))
  | dt (vals : List (Option Date))
deriving DecidableEq, Repr

/-- Column-level pd.to_datetime(. , errors='coerce', dayfirst) : a raw
string column is parsed cell by cell (missing cells coerce to NaT); a
column that already has datetime dtype is returned unchanged, whatever
format or dayfirst arguments were passed. -/
def toDatetimeCol (dayfirst : Bool) : DateCol → DateCol
  | .raw vals => .dt (vals.map (fun o => o.bind (toDatetimeStr dayfirst)))
  | .dt vals => .dt vals

/-- Whether some cell of the column is null (df['date'].isnull().any()). -/
def anyNullCol : DateCol → Bool
  | .raw vals => vals.any (fun o => o.isNone)
  | .dt vals => vals.any (fun o => o.isNone)

/-- Line 44, the second-stage alternative parse: the cells selected by the
null mask are re-fed to pd.to_datetime.  At this point the column already
has datetime dtype, so a selected cell is NaT and to_datetime maps NaT to
NaT; unselected cells are left as they are. -/
def applyFallback : DateCol → DateCol
  | .raw vals => .raw vals
  | .dt vals => .dt (vals.map (fun o =>
      match o with
      | none => none
      | some dt => some dt))

/-- Date-resolution chain of lines 22-54: the plain coercing parse of line
22, then the mixed/dayfirst parse of line 30 (which receives an
already-datetime column), then, if any cell is null, the line 44 fallback
on the null cells. -/
def resolveCol (vals : List (Option String)) : DateCol :=
  let col1 := toDatetimeCol false (.raw vals)
  let col2 := toDatetimeCol true col1
  if anyNullCol col2 then applyFallback col2 else col2

/-- The same chain with the line 44 fallback step removed (for the
equivalence claim about that step). -/
def resolveColNoFallback (vals : List (Option String)) : DateCol :=
  let col1 := toDatetimeCol false (.raw vals)
  toDatetimeCol true col1

/-- Cell values of a column known to have datetime dtype. -/
def colDates : DateCol → List (Option Date)
  | .raw _ => []
  | .dt vals => vals

/-- Resolved date column of the pipeline as a list of optional dates. -/
def resolveDates (vals : List (Option String)) : List (Option Date) :=
  colDates (resolveCol vals)

/-- Resolved date column without the line 44 fallback. -/
def resolveDatesNoFallback (vals : List (Option String)) : List (Option Date) :=
  colDates (resolveColNoFallback vals)

/-! ## numpy argsort with kind='quicksort' (introsort), npysort/quicksort.c.src

The index array tosort is modelled as Array Nat; keys.getD i 0 stands for
the key of original row i; out-of-range accesses (which the C code never
performs on the executions modelled here) read harmless defaults. -/

/-- Key of original row i. -/
def keyAt (keys : Array Nat) (i : Nat) : Nat := keys.getD i 0

/-- Key stored at position p of the index array (v[tosort[p]]). -/
def kOf (keys t : Array Nat) (p : Nat) : Nat := keyAt keys (t.getD p 0)

/-- Swap of two positions of the index array (INTP_SWAP). -/
def aswap (t : Array Nat) (i j : Nat) : Array Nat :=
  let x := t.getD i 0
  let y := t.getD j 0
  (t.setD i y).setD j x

/-- One step of the insertion-sort phase: the new index i is inserted into
the already sorted list before the first strictly greater key, i.e. after
every key less than or equal to its own, exactly as the inner
shift-while-strictly-less loop of aquicksort_ places *pi. -/
def argInsert (keys : Array Nat) (i : Nat) : List Nat → List Nat
  | [] => [i]
  | j :: rest =>
    if keyAt keys i < keyAt keys j then i :: j :: rest
    else j :: argInsert keys i rest

/-- Insertion-sort phase of aquicksort_ on a list of indices, scanning left
to right and inserting each index into the sorted part. -/
def insertionArgsort (keys : Array Nat) (l : List Nat) : List Nat :=
  l.foldl (fun acc i => argInsert keys i acc) []

/-- Contents of positions pl..pr of the index array as a list. -/
def sliceList (t : Array Nat) (pl pr : Nat) : List Nat :=
  (List.range (pr + 1 - pl)).map (fun k => t.getD (pl + k) 0)

/-- Write a list back into the index array starting at position p. -/
def writeRange (t : Array Nat) (p : Nat) : List Nat → Array Nat
  | [] => t
  | x :: xs => writeRange (t.setD p x) (p + 1) xs

/-- Scan do ++pi while (LT(v[*pi], vp)): first position q at or after the
given start whose key is not less than the pivot. -/
def scanUp (keys t : Array Nat) (vp : Nat) : Nat → Nat → Nat
  | p, 0 => p
  | p, fuel + 1 => if kOf keys t p < vp then scanUp keys t vp (p + 1) fuel else p

/-- Scan do --pj while (LT(vp, v[*pj])): first position q at or below the
given start whose key is not greater than the pivot. -/
def scanDown (keys t : Array Nat) (vp : Nat) : Nat → Nat → Nat
  | p, 0 => p
  | p, fuel + 1 => if vp < kOf keys t p then scanDown keys t vp (p - 1) fuel else p

/-- Partition exchange loop of aquicksort_: advance both scans, stop when
they cross, otherwise swap and continue.  Returns the final index array and
the crossing position pi. -/
def partLoop (keys : Array Nat) (vp : Nat) (sz : Nat) :
    Array Nat → Nat → Nat → Nat → Array Nat × Nat
  | t, _, _, 0 => (t, 0)
  | t, pi, pj, fuel + 1 =>
    let pi2 := scanUp keys t vp (pi + 1) (sz + 2)
    let pj2 := scanDown keys t vp (pj - 1) (sz + 2)
    if pj2 ≤ pi2 then (t, pi2)
    else partLoop keys vp sz (aswap t pi2 pj2) pi2 pj2 fuel

/-- One quicksort partition of positions pl..pr: median-of-three pivot
selection with the three conditional swaps, pivot parked at pr-1, exchange
loop, pivot swapped back to the crossing position. -/
def partitionStep (keys t0 : Array Nat) (pl pr : Nat) : Array Nat × Nat :=
  let pm := pl + (pr - pl) / 2
  let t1 := if kOf keys t0 pm < kOf keys t0 pl then aswap t0 pm pl else t0
  let t2 := if kOf keys t1 pr < kOf keys t1 pm then aswap t1 pr pm else t1
  let t3 := if kOf keys t2 pm < kOf keys t2 pl then aswap t2 pm pl else t2
  let vp := kOf keys t3 pm
  let t4 := aswap t3 pm (pr - 1)
  let res := partLoop keys vp t4.size t4 pl (pr - 1) (pr + 2 - pl)
  (aswap res.1 res.2 (pr - 1), res.2)

/-- Position of the most significant bit (npy_get_msb). -/
def npyGetMsb (n : Nat) : Nat := Nat.log2 n

/-- Heap cell read, 1-based within the subrange starting at pl (a = tosort - 1). -/
def hGet (t : Array Nat) (pl q : Nat) : Nat := t.getD (pl + q - 1) 0

/-- Heap cell write, 1-based within the subrange starting at pl. -/
def hSet (t : Array Nat) (pl q v : Nat) : Array Nat := t.setD (pl + q - 1) v

/-- Sift-down loop of aheapsort_: walk the larger child while it beats the
saved value tmp, then store tmp. -/
def siftDown (keys : Array Nat) (pl tmp n : Nat) :
    Array Nat → Nat → Nat → Nat → Array Nat
  | t, i, _, 0 => hSet t pl i tmp
  | t, i, j, fuel + 1 =>
    if j ≤ n then
      let j2 :=
        if j < n && keyAt keys (hGet t pl j) < keyAt keys (hGet t pl (j + 1))
        then j + 1 else j
      if keyAt keys tmp < keyAt keys (hGet t pl j2) then
        siftDown keys pl tmp n (hSet t pl i (hGet t pl j2)) j2 (j2 + j2) fuel
      else hSet t pl i tmp
    else hSet t pl i tmp

/-- Heap construction loop of aheapsort_ (l from n/2 down to 1). -/
def heapifyLoop (keys : Array Nat) (pl n : Nat) : Array Nat → Nat → Array Nat
  | t, 0 => t
  | t, l + 1 =>
    let t2 := siftDown keys pl (hGet t pl (l + 1)) n t (l + 1) ((l + 1) * 2) (n + 2)
    heapifyLoop keys pl n t2 l

/-- Extraction loop of aheapsort_ (while n > 1). -/
def extractLoop (keys : Array Nat) (pl : Nat) : Array Nat → Nat → Nat → Array Nat
  | t, _, 0 => t
  | t, n, fuel + 1 =>
    if n ≤ 1 then t
    else
      let tmp := hGet t pl n
      let t2 := hSet t pl n (hGet t pl 1)
      let n2 := n - 1
      let t3 := siftDown keys pl tmp n2 t2 1 2 (n2 + 2)
      extractLoop keys pl t3 n2 fuel

/-- aheapsort_ applied to the subrange pl..pr of the index array (the
depth-limit fallback of introsort). -/
def aheapsort (keys t : Array Nat) (pl pr : Nat) : Array Nat :=
  let n := pr + 1 - pl
  let t2 := heapifyLoop keys pl n t (n / 2)
  extractLoop keys pl t2 n (n + 1)

/-- Outer loop of aquicksort_ with its explicit stack: partition ranges
longer than SMALL_QUICKSORT = 15 elements (pr - pl > 15), push the larger
side, keep the smaller; switch to heapsort when the shared depth budget is
exhausted; insertion-sort short ranges; pop until the stack is empty.  The
fuel only bounds the recursion and is chosen large enough to never run out
(each partition consumes one unit and handles a disjoint subrange of at
least 17 positions; pops are at most pushes plus one). -/
def aquicksort (keys : Array Nat) :
    Nat → Array Nat → List (Nat × Nat) → Nat → Nat → Nat → Array Nat
  | 0, t, _, _, _, _ => t
  | fuel + 1, t, stack, pl, pr, depth =>
    if 15 < pr - pl then
      if depth = 0 then
        let t2 := aheapsort keys t pl pr
        match stack with
        | [] => t2
        | (l, r) :: rest => aquicksort keys fuel t2 rest l r depth
      else
        let pres := partitionStep keys t pl pr
        let pi := pres.2
        if pi - pl < pr - pi then
          aquicksort keys fuel pres.1 ((pi + 1, pr) :: stack) pl (pi - 1) (depth - 1)
        else
          aquicksort keys fuel pres.1 ((pl, pi - 1) :: stack) (pi + 1) pr (depth - 1)
    else
      let t2 := writeRange t pl (insertionArgsort keys (sliceList t pl pr))
      match stack with
      | [] => t2
      | (l, r) :: rest => aquicksort keys fuel t2 rest l r depth

/-- ndarray.argsort(kind='quicksort') on the key array: identity index
array, then aquicksort_ with depth limit npy_get_msb(num) * 2.  For at most
16 keys the outer loop immediately insertion-sorts the whole range, which
the first branch states directly. -/
def argsortQuicksort (keys : Array Nat) : List Nat :=
  let n := keys.size
  if n ≤ 16 then insertionArgsort keys (List.range n)
  else
    (aquicksort keys (3 * n + 8) (Array.range n) [] 0 (n - 1)
      (2 * npyGetMsb n + 1)).toList

/-! ## Row records and the pipeline stages -/

/-- One input row: the three semantically relevant columns of the CSV, with
missing cells as none. -/
structure RawRow (α : Type) where
  date : Option String
  amount : Option α
  type : Option String
deriving DecidableEq, Repr

/-- A row after the date-resolution chain, tagged with its pandas row label
(RangeIndex position). -/
structure ParsedRow (α : Type) where
  idx : Nat
  date : Option Date
  amount : Option α
  type : Option String
deriving DecidableEq, Repr

/-- A row retained by dropna: date resolved, amount and type present. -/
structure FilteredRow (α : Type) where
  idx : Nat
  date : Date
  amount : α
  type : String
deriving DecidableEq, Repr

/-- A filtered row with the derived signed_amount column (line 69). -/
structure SignedRow (α : Type) where
  idx : Nat
  date : Date
  amount : α
  type : String
  signed_amount : α
deriving DecidableEq, Repr

/-- A row with the calendar feature columns of lines 91-94. -/
structure EnrichedRow (α : Type) where
  idx : Nat
  date : Date
  amount : α
  type : String
  signed_amount : α
  year : Nat
  month : Nat
  month_name : String
  day_of_week : String
deriving DecidableEq, Repr

/-- A fully processed row of the clean output (line 100 adds
running_balance). -/
structure CleanRow (α : Type) where
  idx : Nat
  date : Date
  amount : α
  type : String
  signed_amount : α
  year : Nat
  month : Nat
  month_name : String
  day_of_week : String
  running_balance : α
deriving DecidableEq, Repr

/-- One row of the monthly summary (lines 104-110). -/
structure MonthlyRow (α : Type) where
  year : Nat
  month : Nat
  transaction_count : Nat
  total_income : α
  total_expense : α
  net_cashflow : α
deriving DecidableEq, Repr

/-- Pair each element with its position, starting at i (the RangeIndex). -/
def idxFrom (i : Nat) : List β → List (Nat × β)
  | [] => []
  | x :: xs => (i, x) :: idxFrom (i + 1) xs

/-- Rows after the date-resolution chain of lines 22-54, with row labels. -/
def mkParsedRows {α : Type} (rows : List (RawRow α)) : List (ParsedRow α) :=
  let dates := resolveDates (rows.map (fun r => r.date))
  (idxFrom 0 (rows.zip dates)).map (fun p => ⟨p.1, p.2.2, p.2.1.amount, p.2.1.type⟩)

/-- Rows resolved without the line 44 fallback step. -/
def mkParsedRowsNoFallback {α : Type} (rows : List (RawRow α)) : List (ParsedRow α) :=
  let dates := resolveDatesNoFallback (rows.map (fun r => r.date))
  (idxFrom 0 (rows.zip dates)).map (fun p => ⟨p.1, p.2.2, p.2.1.amount, p.2.1.type⟩)

/-- Line 58, df.dropna(subset=['date', 'amount', 'type']): keep exactly the
rows whose three cells are all present, in order, unwrapping the options. -/
def dropnaRows {α : Type} (l : List (ParsedRow α)) : List (FilteredRow α) :=
  l.filterMap (fun r =>
    match r.date, r.amount, r.type with
    | some dt, some a, some t => some ⟨r.idx, dt, a, t⟩
    | _, _, _ => none)

/-- Line 68, df['type'].str.strip().str.title(). -/
def normalizeType {α : Type} (r : FilteredRow α) : FilteredRow α :=
  ⟨r.idx, r.date, r.amount, pyTitle (pyStrip r.type)⟩

/-- Line 69, np.where(df['type'].eq('Expense'), -abs, abs). -/
def signRow {α : Type} [LinearOrderedAddCommGroup α] (r : FilteredRow α) :
    SignedRow α :=
  ⟨r.idx, r.date, r.amount, r.type,
    if r.type = "Expense" then -|r.amount| else |r.amount|⟩

/-- Lines 91-94, the calendar feature columns. -/
def enrichRow {α : Type} (r : SignedRow α) : EnrichedRow α :=
  ⟨r.idx, r.date, r.amount, r.type, r.signed_amount,
    r.date.y, r.date.m, monthName r.date.m, dayName r.date⟩

/-- Line 97, df.sort_values('date') with the default kind='quicksort':
argsort of the date keys by numpy introsort, then take the rows in that
index order. -/
def sortValuesByDate {α : Type} (l : List (EnrichedRow α)) : List (EnrichedRow α) :=
  let keys : Array Nat := (l.map (fun r => dateKey r.date)).toArray
  (argsortQuicksort keys).filterMap (fun i => l.get? i)

/-- Running accumulation of Series.cumsum(), carrying the sum so far. -/
def cumsumFrom {α : Type} [LinearOrderedAddCommGroup α] (acc : α) :
    List α → List α
  | [] => []
  | x :: xs => (acc + x) :: cumsumFrom (acc + x) xs

/-- Line 100, df['running_balance'] = df['signed_amount'].cumsum() over the
date-sorted rows. -/
def addRunningBalance {α : Type} [LinearOrderedAddCommGroup α]
    (l : List (EnrichedRow α)) : List (CleanRow α) :=
  List.zipWith
    (fun r b => ⟨r.idx, r.date, r.amount, r.type, r.signed_amount, r.year,
      r.month, r.month_name, r.day_of_week, b⟩)
    l (cumsumFrom 0 (l.map (fun r => r.signed_amount)))

/-- Strict ascending order on (year, month) group keys. -/
def ymLt (a b : Nat × Nat) : Bool := a.1 < b.1 || (a.1 = b.1 && a.2 < b.2)

/-- Ordered insertion of a group key. -/
def insertYM (k : Nat × Nat) : List (Nat × Nat) → List (Nat × Nat)
  | [] => [k]
  | j :: rest => if ymLt k j then k :: j :: rest else j :: insertYM k rest

/-- Ascending sort of the distinct group keys (groupby uses sort=True). -/
def sortYM (l : List (Nat × Nat)) : List (Nat × Nat) :=
  l.foldl (fun acc k => insertYM k acc) []

/-- Distinct (year, month) keys of the clean rows, ascending. -/
def monthlyKeys {α : Type} (l : List (CleanRow α)) : List (Nat × Nat) :=
  sortYM ((l.map (fun r => (r.year, r.month))).dedup)

/-- Lines 104-110: the four aggregations of one (year, month) group, with
the source's conditionals kept as written: total_income is the sum of the
positive signed amounts unless the group series is empty; total_expense is
minus the sum of the negative signed amounts when the series is non-empty
and some amount is negative, else 0; net_cashflow is the plain sum. -/
def groupAgg {α : Type} [LinearOrderedAddCommGroup α]
    (l : List (CleanRow α)) (k : Nat × Nat) : MonthlyRow α :=
  let s : List α := (l.filter (fun r => r.year == k.1 && r.month == k.2)).map
    (fun r => r.signed_amount)
  { year := k.1
    month := k.2
    transaction_count := s.length
    total_income := if s.isEmpty then 0 else (s.filter (fun x => decide (0 < x))).sum
    total_expense :=
      if !s.isEmpty && s.any (fun x => decide (x < 0)) then
        -(s.filter (fun x => decide (x < 0))).sum
      else 0
    net_cashflow := s.sum }

/-- The monthly summary: one aggregated row per distinct (year, month). -/
def monthly_summary {α : Type} [LinearOrderedAddCommGroup α]
    (l : List (CleanRow α)) : List (MonthlyRow α) :=
  (monthlyKeys l).map (groupAgg l)

/-- Stages of lines 58-100 applied to resolved rows. -/
def cleanFromParsed {α : Type} [LinearOrderedAddCommGroup α]
    (l : List (ParsedRow α)) : List (CleanRow α) :=
  addRunningBalance (sortValuesByDate
    ((((dropnaRows l).map normalizeType).map signRow).map enrichRow))

/-- The filtered record set of a run (dropna over the resolved rows). -/
def filteredRows {α : Type} (rows : List (RawRow α)) : List (FilteredRow α) :=
  dropnaRows (mkParsedRows rows)

/-- The clean output record set of a run (lines 22-100). -/
def cleanRows {α : Type} [LinearOrderedAddCommGroup α]
    (rows : List (RawRow α)) : List (CleanRow α) :=
  cleanFromParsed (mkParsedRows rows)

/-- The clean output with the line 44 fallback step removed. -/
def cleanRowsNoFallback {α : Type} [LinearOrderedAddCommGroup α]
    (rows : List (RawRow α)) : List (CleanRow α) :=
  cleanFromParsed (mkParsedRowsNoFallback rows)

/-- The whole run: date resolution, the dtype guard of lines 76-86 (whose
abort path models the early return at line 86), then the processing stages
and the two emitted result sets of lines 122-134.  Error means the run
aborts before any output file is produced. -/
def pipeline {α : Type} [LinearOrderedAddCommGroup α] (rows : List (RawRow α)) :
    Except String (List (CleanRow α) × List (MonthlyRow α)) :=
  match resolveCol (rows.map (fun r => r.date)) with
  | .dt _ =>
    let clean := cleanRows rows
    .ok (clean, monthly_summary clean)
  | .raw rvals =>
    let recoerced := toDatetimeCol false (.raw rvals)
    if (colDates recoerced).all (fun o => o.isNone) then
      .error "Could not convert any dates to datetime format"
    else
      let clean := cleanRows rows
      .ok (clean, monthly_summary clean)

/-- The whole run with the line 44 fallback step removed. -/
def pipelineNoFallback {α : Type} [LinearOrderedAddCommGroup α]
    (rows : List (RawRow α)) :
    Except String (List (CleanRow α) × List (MonthlyRow α)) :=
  match resolveColNoFallback (rows.map (fun r => r.date)) with
  | .dt _ =>
    let clean := cleanRowsNoFallback rows
    .ok (clean, monthly_summary clean)
  | .raw rvals =>
    let recoerced := toDatetimeCol false (.raw rvals)
    if (colDates recoerced).all (fun o => o.isNone) then
      .error "Could not convert any dates to datetime format"
    else
      let clean := cleanRowsNoFallback rows
      .ok (clean, monthly_summary clean)

/-- Re-run of the pipeline on its own clean output, with the signed_amount
column fed in as the amount column and every row treated as non-expense
(spec section 8, idempotence).  The CSV encoding is a pass-through format
by spec section 1, so the serialized dates come back as the same resolved
dates and the re-run enters at the resolved-rows stage with fresh row
labels (read_csv assigns a new RangeIndex). -/
def rerunParsed {α : Type} (l : List (CleanRow α)) : List (ParsedRow α) :=
  (idxFrom 0 l).map (fun p =>
    ⟨p.1, some p.2.date, some p.2.signed_amount, some "Income"⟩)

/-- Clean output of the re-run on the clean output of the first run. -/
def rerunClean {α : Type} [LinearOrderedAddCommGroup α]
    (rows : List (RawRow α)) : List (CleanRow α) :=
  cleanFromParsed (rerunParsed (cleanRows rows))

/-- Stability by date: records at earlier output positions with the same
resolved date carry smaller row labels, i.e. equal-date records appear in
their post-filter input order. -/
def StableByDate {α : Type} (l : List (CleanRow α)) : Prop :=
  ∀ i j : Fin l.length, i < j → (l.get i).date = (l.get j).date →
    (l.get i).idx < (l.get j).idx

instance {α : Type} (l : List (CleanRow α)) : Decidable (StableByDate l) :=
  inferInstanceAs (Decidable (∀ i j : Fin l.length, i < j →
    (l.get i).date = (l.get j).date → (l.get i).idx < (l.get j).idx))

/-- Stable order on original row indices for a key array: strictly smaller
key, or equal key and smaller index.  The insertion-sort phase of numpy's
argsort produces index sequences that are pairwise in this order. -/
def StableOrd (keys : Array Nat) (a b : Nat) : Prop :=
  keyAt keys a < keyAt keys b ∨ (keyAt keys a = keyAt keys b ∧ a < b)

instance {ε β : Type} [DecidableEq ε] [DecidableEq β] :
    DecidableEq (Except ε β) := fun x y =>
  match x, y with
  | .ok a, .ok b =>
    if h : a = b then .isTrue (by rw [h])
    else .isFalse (by intro he; cases he; exact h rfl)
  | .error a, .error b =>
    if h : a = b then .isTrue (by rw [h])
    else .isFalse (by intro he; cases he; exact h rfl)
  | .ok _, .error _ => .isFalse (fun he => Except.noConfusion he)
  | .error _, .ok _ => .isFalse (fun he => Except.noConfusion he)

/-! ## The fallback step of line 44 is inert -/

theorem applyFallback_eq_self (c : DateCol) : applyFallback c = c := by
  cases c with
  | raw vals => rfl
  | dt vals =>
    have hf : ∀ o : Option Date,
        (match o with | none => none | some dt => some dt) = o := by
      intro o; cases o <;> rfl
    simp [applyFallback, hf]

theorem resolveCol_eq_noFallback (vals : List (Option String)) :
    resolveCol vals = resolveColNoFallback vals := by
  simp only [resolveCol, resolveColNoFallback, applyFallback_eq_self, ite_self]

theorem resolveDates_eq_noFallback (vals : List (Option String)) :
    resolveDates vals = resolveDatesNoFallback vals := by
  unfold resolveDates resolveDatesNoFallback
  rw [resolveCol_eq_noFallback]

theorem mkParsedRows_eq_noFallback {α : Type} (rows : List (RawRow α)) :
    mkParsedRows rows = mkParsedRowsNoFallback rows := by
  unfold mkParsedRows mkParsedRowsNoFallback
  rw [resolveDates_eq_noFallback]

theorem cleanRows_eq_noFallback {α : Type} [LinearOrderedAddCommGroup α]
    (rows : List (RawRow α)) : cleanRows rows = cleanRowsNoFallback rows := by
  unfold cleanRows cleanRowsNoFallback
  rw [mkParsedRows_eq_noFallback]

/-- C9: the second-stage alternative date parse (line 44) is applied to
date values that the earlier attempts already coerced, so the rows with a
resolved date after it are exactly the rows resolved before it, and the
pipeline with the fallback step equals the pipeline without it. -/
theorem C9_fallback_step_is_noop {α : Type} [LinearOrderedAddCommGroup α] :
    (∀ vals : List (Option String),
      resolveDates vals = resolveDatesNoFallback vals)
    ∧ ∀ rows : List (RawRow α), pipeline rows = pipelineNoFallback rows := by
  refine ⟨resolveDates_eq_noFallback, fun rows => ?_⟩
  unfold pipeline pipelineNoFallback
  rw [resolveCol_eq_noFallback, cleanRows_eq_noFallback]

/-- C1: the pipeline resolves the ambiguous input date "03/04/2024" to
March 4th 2024, not to the April 3rd the specification expects: line 22
already coerces the string with the default month-first reading, and the
day-first parse of line 30 then receives a datetime column on which the
dayfirst argument has no effect.  The second conjunct records that the
day-first strategy itself, applied to the raw string, would give
April 3rd 2024. -/
theorem C1_ambiguous_date_resolves_month_first :
    resolveDates [some "03/04/2024"] = [some ⟨2024, 3, 4⟩]
      ∧ toDatetimeStr true "03/04/2024" = some ⟨2024, 4, 3⟩ := by
  constructor <;> decide

/-- C2: an input whose date column is entirely uncoercible does not abort
the run: the coerced column has datetime dtype even when every cell is NaT,
so the guard of line 76 passes, every row is dropped at line 58, and the
run completes, writing the same empty clean output and empty monthly
summary as a run whose filter legitimately retains nothing — the two
outcomes are indistinguishable, contrary to the claim. -/
theorem C2_uncoercible_dates_still_produce_outputs :
    pipeline [(⟨some "not-a-date", some (10 : ℤ), some "Income"⟩ : RawRow ℤ)]
      = .ok ([], [])
    ∧ pipeline ([] : List (RawRow ℤ)) = .ok ([], []) := by
  constructor <;> decide

/-- C8: an empty input (zero data rows) completes without error and
produces an empty clean output and an empty monthly summary. -/
theorem C8_empty_input_empty_outputs {α : Type} [LinearOrderedAddCommGroup α] :
    pipeline ([] : List (RawRow α)) = .ok ([], []) := by
  have h1 : cleanRows ([] : List (RawRow α)) = [] := rfl
  have h2 : monthly_summary (([]) : List (CleanRow α)) = [] := rfl
  unfold pipeline
  rw [show List.map (fun r : RawRow α => r.date) [] = [] from rfl,
    show resolveCol [] = DateCol.dt [] from rfl]
  simp only [h1, h2]

/-! ## Running balance: cumulative sums (line 100) -/

theorem cumsumFrom_length {α : Type} [LinearOrderedAddCommGroup α] (acc : α)
    (l : List α) : (cumsumFrom acc l).length = l.length := by
  induction l generalizing acc with
  | nil => rfl
  | cons x xs ih => simp [cumsumFrom, ih]

theorem cumsumFrom_getElem? {α : Type} [LinearOrderedAddCommGroup α] (acc : α)
    (l : List α) (i : Nat) (h : i < l.length) :
    (cumsumFrom acc l)[i]? = some (acc + (l.take (i + 1)).sum) := by
  induction l generalizing acc i with
  | nil => cases h
  | cons x xs ih =>
    cases i with
    | zero => simp [cumsumFrom]
    | succ n =>
      have hn : n < xs.length := by simpa using h
      simp [cumsumFrom, ih (acc + x) n hn, add_assoc]

/-- Element i of the clean output is element i of the sorted enriched list
together with the sum of the first i+1 signed amounts as running balance. -/
theorem addRB_getElem?_eq {α : Type} [LinearOrderedAddCommGroup α]
    (l : List (EnrichedRow α)) (i : Nat) :
    (addRunningBalance l)[i]? = (l[i]?).map (fun r =>
      ⟨r.idx, r.date, r.amount, r.type, r.signed_amount, r.year, r.month,
        r.month_name, r.day_of_week,
        (((l.map (fun e => e.signed_amount)).take (i + 1)).sum)⟩) := by
  unfold addRunningBalance
  rw [List.getElem?_zipWith']
  cases hl : l[i]? with
  | none => rfl
  | some r =>
    have hi : i < l.length := by
      by_contra hlt
      rw [List.getElem?_eq_none (Nat.le_of_not_lt hlt)] at hl
      cases hl
    have hm : i < (l.map (fun e => e.signed_amount)).length := by simpa using hi
    rw [cumsumFrom_getElem? 0 _ i hm]
    simp

theorem addRB_length {α : Type} [LinearOrderedAddCommGroup α]
    (l : List (EnrichedRow α)) :
    (addRunningBalance l).length = l.length := by
  unfold addRunningBalance
  rw [List.length_zipWith, cumsumFrom_length, List.length_map,
    Nat.min_self]

/-- The signed_amount column is unchanged by adding the running balance. -/
theorem addRB_map_signed {α : Type} [LinearOrderedAddCommGroup α]
    (l : List (EnrichedRow α)) :
    (addRunningBalance l).map (fun r => r.signed_amount)
      = l.map (fun r => r.signed_amount) := by
  apply List.ext_getElem?
  intro i
  rw [List.getElem?_map, List.getElem?_map, addRB_getElem?_eq]
  cases l[i]? <;> rfl

theorem addRB_head {α : Type} [LinearOrderedAddCommGroup α]
    (l : List (EnrichedRow α)) (r0 : CleanRow α)
    (h : (addRunningBalance l).head? = some r0) :
    r0.running_balance = r0.signed_amount := by
  rw [List.head?_eq_getElem?, addRB_getElem?_eq] at h
  rcases Option.map_eq_some'.mp h with ⟨e, hl, rfl⟩
  have hm : (l.map (fun e => e.signed_amount))[0]?
      = some e.signed_amount := by
    rw [List.getElem?_map, hl]
    rfl
  simp [List.take_succ, hm]

theorem addRB_step {α : Type} [LinearOrderedAddCommGroup α]
    (l : List (EnrichedRow α)) (i : Nat) (r s : CleanRow α)
    (hr : (addRunningBalance l)[i]? = some r)
    (hs : (addRunningBalance l)[i + 1]? = some s) :
    s.running_balance = r.running_balance + s.signed_amount := by
  rw [addRB_getElem?_eq] at hr hs
  cases hl : l[i]? with
  | none => rw [hl] at hr; cases hr
  | some e =>
    cases hl2 : l[i + 1]? with
    | none => rw [hl2] at hs; cases hs
    | some f =>
      rw [hl] at hr
      rw [hl2] at hs
      cases hr
      cases hs
      have hi2 : i + 1 < (l.map (fun e => e.signed_amount)).length := by
        rw [List.length_map]
        by_contra hlt
        rw [List.getElem?_eq_none (Nat.le_of_not_lt hlt)] at hl2
        cases hl2
      have hsum := List.sum_take_succ (l.map (fun e => e.signed_amount))
        (i + 1) hi2
      have hm : (l.map (fun e => e.signed_amount))[i + 1]?
          = some f.signed_amount := by
        rw [List.getElem?_map, hl2]
        rfl
      rw [List.getElem?_eq_getElem hi2] at hm
      have hf := Option.some_injective _ hm
      simp only []
      rw [hsum, hf]

theorem addRB_last {α : Type} [LinearOrderedAddCommGroup α]
    (l : List (EnrichedRow α)) (rl : CleanRow α)
    (h : (addRunningBalance l).getLast? = some rl) :
    rl.running_balance
      = ((addRunningBalance l).map (fun r => r.signed_amount)).sum := by
  rw [List.getLast?_eq_getElem?, addRB_length, addRB_getElem?_eq] at h
  rw [addRB_map_signed]
  cases hl : l[l.length - 1]? with
  | none => rw [hl] at h; cases h
  | some e =>
    rw [hl] at h
    cases h
    have hne : l ≠ [] := by
      intro hnil
      rw [hnil] at hl
      cases hl
    have hlen : 0 < l.length := List.length_pos.mpr hne
    have h1 : l.length - 1 + 1 = l.length := Nat.succ_pred_eq_of_pos hlen
    have h2 : l.length = (l.map (fun e => e.signed_amount)).length :=
      (List.length_map _ _).symm
    have h3 : (l.map (fun e => e.signed_amount)).length - 1 + 1
        = (l.map (fun e => e.signed_amount)).length := by
      rw [← h2]
      exact h1
    simp only [h2, h3, List.take_length]

/-- C4: in the clean output, running_balance is the exact prefix sum of
signed_amount in output order: the first running balance equals the first
signed amount, each later one equals the previous plus the row's signed
amount, and the last equals the total of all signed amounts. -/
theorem C4_running_balance_is_prefix_sum {α : Type}
    [LinearOrderedAddCommGroup α] (rows : List (RawRow α))
    (hne : cleanRows rows ≠ []) :
    (∀ r0, (cleanRows rows).head? = some r0 →
      r0.running_balance = r0.signed_amount)
    ∧ (∀ i r s, (cleanRows rows)[i]? = some r →
        (cleanRows rows)[i + 1]? = some s →
        s.running_balance = r.running_balance + s.signed_amount)
    ∧ (∀ rl, (cleanRows rows).getLast? = some rl →
        rl.running_balance
          = ((cleanRows rows).map (fun r => r.signed_amount)).sum) := by
  refine ⟨fun r0 h => addRB_head _ r0 h,
    fun i r s hr hs => addRB_step _ i r s hr hs,
    fun rl h => addRB_last _ rl h⟩

/-! ## Monthly aggregation algebra (lines 104-110) -/

theorem sum_eq_pos_add_neg {α : Type} [LinearOrderedAddCommGroup α]
    (s : List α) :
    s.sum = (s.filter (fun x => decide (0 < x))).sum
      + (s.filter (fun x => decide (x < 0))).sum := by
  induction s with
  | nil => simp
  | cons x xs ih =>
    rcases lt_trichotomy x 0 with hx | hx | hx
    · rw [List.sum_cons, ih, List.filter_cons, List.filter_cons]
      simp only [decide_eq_true_eq, hx, if_pos, not_lt.mpr hx.le, if_neg,
        List.sum_cons]
      abel
    · subst hx
      rw [List.sum_cons, ih, List.filter_cons, List.filter_cons]
      simp only [decide_eq_true_eq, lt_irrefl, if_neg, not_false_iff]
      abel
    · rw [List.sum_cons, ih, List.filter_cons, List.filter_cons]
      simp only [decide_eq_true_eq, hx, if_pos, not_lt.mpr hx.le, if_neg,
        List.sum_cons]
      abel

theorem groupAgg_net {α : Type} [LinearOrderedAddCommGroup α]
    (l : List (CleanRow α)) (k : Nat × Nat) :
    (groupAgg l k).net_cashflow
      = (groupAgg l k).total_income - (groupAgg l k).total_expense := by
  unfold groupAgg
  simp only []
  set s := (l.filter (fun r => r.year == k.1 && r.month == k.2)).map
    (fun r => r.signed_amount) with hs
  by_cases he : s.isEmpty
  · rw [List.isEmpty_iff] at he
    simp [he]
  · have he' : s.isEmpty = false := by
      cases h : s.isEmpty
      · rfl
      · exact absurd h he
    by_cases hn : s.any (fun x => decide (x < 0))
    · simp only [he', hn, Bool.not_false, Bool.true_and, if_true,
        Bool.false_eq_true, if_false, sub_neg_eq_add]
      exact sum_eq_pos_add_neg s
    · have hn' : s.any (fun x => decide (x < 0)) = false := by
        cases h : s.any (fun x => decide (x < 0))
        · rfl
        · exact absurd h hn
      have hnil : s.filter (fun x => decide (x < 0)) = [] := by
        rw [List.filter_eq_nil_iff]
        intro x hx
        have := (List.any_eq_false.mp hn') x hx
        simpa using this
      simp only [he', hn', Bool.not_false, Bool.true_and, Bool.and_false,
        Bool.false_eq_true, if_false, sub_zero]
      have := sum_eq_pos_add_neg s
      rw [hnil] at this
      simpa using this

/-- C5: every monthly summary group satisfies
net_cashflow = total_income - total_expense exactly (total_income the sum
of positive signed amounts, total_expense the negated sum of the negative
ones, net_cashflow the algebraic sum, as defined in groupAgg). -/
theorem C5_net_cashflow_eq_income_sub_expense {α : Type}
    [LinearOrderedAddCommGroup α] (rows : List (RawRow α)) (g : MonthlyRow α)
    (hg : g ∈ monthly_summary (cleanRows rows)) :
    g.net_cashflow = g.total_income - g.total_expense := by
  unfold monthly_summary at hg
  rcases List.mem_map.mp hg with ⟨k, _hk, rfl⟩
  exact groupAgg_net _ _

/-- C5 witness: the spec's worked scenario, with the January 2024 group
(2 transactions, income 100, expense 40, net 60). -/
theorem C5_witness :
    ((⟨2024, 1, 2, 100, 40, 60⟩ : MonthlyRow ℤ) ∈ monthly_summary (cleanRows
      [⟨some "2024-01-05", some (100 : ℤ), some "Income"⟩,
       ⟨some "2024-01-20", some 40, some "Expense"⟩,
       ⟨some "bad-date", some 10, some "Income"⟩]))
    ∧ (⟨2024, 1, 2, 100, 40, 60⟩ : MonthlyRow ℤ).net_cashflow
        = (⟨2024, 1, 2, 100, 40, 60⟩ : MonthlyRow ℤ).total_income
          - (⟨2024, 1, 2, 100, 40, 60⟩ : MonthlyRow ℤ).total_expense :=
  ⟨by decide, C5_net_cashflow_eq_income_sub_expense
    [⟨some "2024-01-05", some (100 : ℤ), some "Income"⟩,
     ⟨some "2024-01-20", some 40, some "Expense"⟩,
     ⟨some "bad-date", some 10, some "Income"⟩] _ (by decide)⟩

/-- C4 witness: the prefix-sum property of the running balance
instantiated on the spec's worked scenario (clean output non-empty). -/
theorem C4_witness :
    (cleanRows [⟨some "2024-01-05", some (100 : ℤ), some "Income"⟩,
        ⟨some "2024-01-20", some 40, some "Expense"⟩] ≠ [])
    ∧ ((∀ r0, (cleanRows [⟨some "2024-01-05", some (100 : ℤ), some "Income"⟩,
          ⟨some "2024-01-20", some 40, some "Expense"⟩]).head? = some r0 →
        r0.running_balance = r0.signed_amount)
      ∧ (∀ i r s, (cleanRows [⟨some "2024-01-05", some (100 : ℤ), some "Income"⟩,
            ⟨some "2024-01-20", some 40, some "Expense"⟩])[i]? = some r →
          (cleanRows [⟨some "2024-01-05", some (100 : ℤ), some "Income"⟩,
            ⟨some "2024-01-20", some 40, some "Expense"⟩])[i + 1]? = some s →
          s.running_balance = r.running_balance + s.signed_amount)
      ∧ (∀ rl, (cleanRows [⟨some "2024-01-05", some (100 : ℤ), some "Income"⟩,
            ⟨some "2024-01-20", some 40, some "Expense"⟩]).getLast? = some rl →
          rl.running_balance = ((cleanRows
            [⟨some "2024-01-05", some (100 : ℤ), some "Income"⟩,
             ⟨some "2024-01-20", some 40, some "Expense"⟩]).map
              (fun r => r.signed_amount)).sum)) :=
  ⟨by decide, C4_running_balance_is_prefix_sum
    [⟨some "2024-01-05", some (100 : ℤ), some "Income"⟩,
     ⟨some "2024-01-20", some 40, some "Expense"⟩] (by decide)⟩

/-! ## Tracing clean rows back through the stages -/

/-- Each clean row is an enriched row of the sorted list with a running
balance attached; all other fields are unchanged. -/
theorem mem_addRB {α : Type} [LinearOrderedAddCommGroup α]
    (l : List (EnrichedRow α)) (r : CleanRow α)
    (h : r ∈ addRunningBalance l) :
    ∃ e ∈ l, r.idx = e.idx ∧ r.date = e.date ∧ r.amount = e.amount
      ∧ r.type = e.type ∧ r.signed_amount = e.signed_amount := by
  rcases List.mem_iff_getElem?.mp h with ⟨i, hi⟩
  rw [addRB_getElem?_eq] at hi
  rcases Option.map_eq_some'.mp hi with ⟨e, hl, rfl⟩
  exact ⟨e, List.getElem?_mem hl, rfl, rfl, rfl, rfl, rfl⟩

/-- The sorted list contains only rows of its input. -/
theorem mem_sortValues {α : Type} (l : List (EnrichedRow α))
    (e : EnrichedRow α) (h : e ∈ sortValuesByDate l) : e ∈ l := by
  unfold sortValuesByDate at h
  rcases List.mem_filterMap.mp h with ⟨i, _, hi⟩
  exact List.get?_mem hi

/-- Every clean row comes from a filtered row, with the type normalized,
the signed amount given by the line 69 formula, and the other columns of
the filtered row unchanged. -/
theorem mem_cleanFromParsed {α : Type} [LinearOrderedAddCommGroup α]
    (l : List (ParsedRow α)) (r : CleanRow α) (h : r ∈ cleanFromParsed l) :
    ∃ f ∈ dropnaRows l,
      r.idx = f.idx ∧ r.date = f.date ∧ r.amount = f.amount
      ∧ r.type = pyTitle (pyStrip f.type)
      ∧ r.signed_amount
          = (if r.type = "Expense" then -|r.amount| else |r.amount|) := by
  unfold cleanFromParsed at h
  rcases mem_addRB _ _ h with ⟨e, he, hidx, hdate, hamt, htyp, hsgn⟩
  have he2 : e ∈ (((dropnaRows l).map normalizeType).map signRow).map enrichRow :=
    mem_sortValues _ _ he
  rcases List.mem_map.mp he2 with ⟨s, hs, rfl⟩
  rcases List.mem_map.mp hs with ⟨n, hn, rfl⟩
  rcases List.mem_map.mp hn with ⟨f, hf, rfl⟩
  refine ⟨f, hf, hidx, hdate, hamt, htyp, ?_⟩
  rw [hsgn, htyp, hamt]
  rfl

/-- Membership in the position-tagged list: the tag is the position offset
by the start and the element is at that position. -/
theorem mem_idxFrom {β : Type} (l : List β) (n : Nat) (p : Nat × β)
    (h : p ∈ idxFrom n l) :
    ∃ k, k < l.length ∧ p.1 = n + k ∧ l[k]? = some p.2 := by
  induction l generalizing n with
  | nil => cases h
  | cons x xs ih =>
    rcases List.mem_cons.mp h with heq | hmem
    · exact ⟨0, Nat.succ_pos _, by simp [heq], by simp [heq]⟩
    · rcases ih (n + 1) hmem with ⟨k, hk, h1, h2⟩
      refine ⟨k + 1, Nat.succ_lt_succ hk, ?_, by simpa using h2⟩
      rw [h1]
      omega

/-- Each resolved row carries the position of its input row as label, and
the amount and type cells of that input row. -/
theorem mem_mkParsedRows {α : Type} (rows : List (RawRow α)) (p : ParsedRow α)
    (h : p ∈ mkParsedRows rows) :
    ∃ raw, rows[p.idx]? = some raw ∧ p.amount = raw.amount
      ∧ p.type = raw.type := by
  unfold mkParsedRows at h
  rcases List.mem_map.mp h with ⟨q, hq, rfl⟩
  rcases mem_idxFrom _ _ _ hq with ⟨k, hk, h1, h2⟩
  have hz := (List.getElem?_zip_eq_some.mp h2).1
  have hidx : q.1 = k := by rw [h1]; omega
  exact ⟨q.2.1, by rw [show (⟨q.1, q.2.2, q.2.1.amount, q.2.1.type⟩ :
    ParsedRow α).idx = q.1 from rfl, hidx]; exact hz, rfl, rfl⟩

/-- Each filtered row is a resolved row whose three cells were present. -/
theorem mem_dropnaRows {α : Type} (l : List (ParsedRow α)) (f : FilteredRow α)
    (h : f ∈ dropnaRows l) :
    ∃ p ∈ l, p.idx = f.idx ∧ p.date = some f.date
      ∧ p.amount = some f.amount ∧ p.type = some f.type := by
  unfold dropnaRows at h
  rcases List.mem_filterMap.mp h with ⟨p, hp, hf⟩
  cases hd : p.date with
  | none => rw [hd] at hf; cases hf
  | some dt =>
    cases ha : p.amount with
    | none => rw [hd, ha] at hf; cases hf
    | some a =>
      cases ht : p.type with
      | none => rw [hd, ha, ht] at hf; cases hf
      | some t =>
        rw [hd, ha, ht] at hf
        cases hf
        exact ⟨p, hp, rfl, hd, ha, ht⟩

/-- C6: for every record of the clean output, signed_amount is given by
the line 69 formula (minus the absolute amount for normalized type
"Expense", plus the absolute amount otherwise), and whenever the amount is
non-zero the sign of signed_amount matches the expense distinction
exactly.  (For amount 0 the sign match fails; see the counterexample.) -/
theorem C6_signed_amount_formula {α : Type} [LinearOrderedAddCommGroup α]
    (rows : List (RawRow α)) (r : CleanRow α) (h : r ∈ cleanRows rows) :
    r.signed_amount = (if r.type = "Expense" then -|r.amount| else |r.amount|)
    ∧ (r.amount ≠ 0 → (r.signed_amount < 0 ↔ r.type = "Expense")) := by
  rcases mem_cleanFromParsed _ _ h with ⟨f, hf, _, _, _, _, hsgn⟩
  refine ⟨hsgn, fun hne => ?_⟩
  by_cases ht : r.type = "Expense"
  · rw [if_pos ht] at hsgn
    constructor
    · intro _
      exact ht
    · intro _
      rw [hsgn]
      exact neg_neg_of_pos (abs_pos.mpr hne)
  · rw [if_neg ht] at hsgn
    constructor
    · intro hlt
      rw [hsgn] at hlt
      exact absurd hlt (not_lt.mpr (abs_nonneg _))
    · intro he
      exact absurd he ht

/-- C6 counterexample: a valid filtered record with type "Expense" and
amount 0 has signed_amount 0, which is not negative — the sign of
signed_amount does not match the expense distinction on this input, so the
claim as stated (negative iff expense, for every record of the filtered
set) is false. -/
theorem C6_counterexample :
    ∃ r : CleanRow ℤ,
      r ∈ cleanRows [⟨some "2024-01-05", some (0 : ℤ), some "Expense"⟩]
      ∧ r.type = "Expense" ∧ r.signed_amount = 0
      ∧ ¬ r.signed_amount < 0 := by
  refine ⟨⟨0, ⟨2024, 1, 5⟩, 0, "Expense", 0, 2024, 1, "January", "Friday", 0⟩,
    ?_, ?_, ?_, ?_⟩ <;> decide

/-- C6 witness: the formula and the sign match instantiated on a concrete
income record with non-zero amount. -/
theorem C6_witness :
    ((⟨0, ⟨2024, 1, 5⟩, 100, "Income", 100, 2024, 1, "January", "Friday",
        100⟩ : CleanRow ℤ)
      ∈ cleanRows [⟨some "2024-01-05", some (100 : ℤ), some "Income"⟩])
    ∧ ((⟨0, ⟨2024, 1, 5⟩, 100, "Income", 100, 2024, 1, "January", "Friday",
        100⟩ : CleanRow ℤ).signed_amount
        = (if (⟨0, ⟨2024, 1, 5⟩, 100, "Income", 100, 2024, 1, "January",
            "Friday", 100⟩ : CleanRow ℤ).type = "Expense" then
          -|(⟨0, ⟨2024, 1, 5⟩, 100, "Income", 100, 2024, 1, "January",
            "Friday", 100⟩ : CleanRow ℤ).amount|
        else |(⟨0, ⟨2024, 1, 5⟩, 100, "Income", 100, 2024, 1, "January",
            "Friday", 100⟩ : CleanRow ℤ).amount|)
      ∧ ((⟨0, ⟨2024, 1, 5⟩, 100, "Income", 100, 2024, 1, "January",
            "Friday", 100⟩ : CleanRow ℤ).amount ≠ 0 →
          ((⟨0, ⟨2024, 1, 5⟩, 100, "Income", 100, 2024, 1, "January",
            "Friday", 100⟩ : CleanRow ℤ).signed_amount < 0
            ↔ (⟨0, ⟨2024, 1, 5⟩, 100, "Income", 100, 2024, 1, "January",
              "Friday", 100⟩ : CleanRow ℤ).type = "Expense"))) :=
  ⟨by decide, C6_signed_amount_formula
    [⟨some "2024-01-05", some (100 : ℤ), some "Income"⟩] _ (by decide)⟩

/-- C10: signing and enrichment only add columns; the amount cell of every
retained record in the clean output equals the amount cell of the input
row it was filtered from (identified by its row label). -/
theorem C10_amount_column_unchanged {α : Type} [LinearOrderedAddCommGroup α]
    (rows : List (RawRow α)) (r : CleanRow α) (h : r ∈ cleanRows rows) :
    ∃ raw, rows[r.idx]? = some raw ∧ raw.amount = some r.amount := by
  rcases mem_cleanFromParsed _ _ h with ⟨f, hf, hidx, _, hamt, _, _⟩
  rcases mem_dropnaRows _ _ hf with ⟨p, hp, hpidx, _, hpamt, _⟩
  rcases mem_mkParsedRows _ _ hp with ⟨raw, hraw, hramt, _⟩
  refine ⟨raw, ?_, ?_⟩
  · rw [hidx, ← hpidx]
    exact hraw
  · rw [← hramt, hpamt, hamt]

/-- C10 witness: the amount of the single clean record of a concrete run
equals the amount cell of its input row. -/
theorem C10_witness :
    ((⟨0, ⟨2024, 1, 5⟩, 100, "Income", 100, 2024, 1, "January", "Friday",
        100⟩ : CleanRow ℤ)
      ∈ cleanRows [⟨some "2024-01-05", some (100 : ℤ), some "Income"⟩,
        ⟨none, some 7, some "Income"⟩])
    ∧ ∃ raw, [(⟨some "2024-01-05", some (100 : ℤ), some "Income"⟩ : RawRow ℤ),
        ⟨none, some 7, some "Income"⟩][(⟨0, ⟨2024, 1, 5⟩, 100, "Income", 100,
          2024, 1, "January", "Friday", 100⟩ : CleanRow ℤ).idx]? = some raw
        ∧ raw.amount = some (⟨0, ⟨2024, 1, 5⟩, 100, "Income", 100, 2024, 1,
          "January", "Friday", 100⟩ : CleanRow ℤ).amount :=
  ⟨by decide, C10_amount_column_unchanged
    [⟨some "2024-01-05", some (100 : ℤ), some "Income"⟩,
     ⟨none, some 7, some "Income"⟩] _ (by decide)⟩

/-! ## The insertion-sort phase: membership, stability, sortedness -/

theorem mem_argInsert (keys : Array Nat) (i : Nat) (l : List Nat) (x : Nat) :
    x ∈ argInsert keys i l ↔ x = i ∨ x ∈ l := by
  induction l with
  | nil => simp [argInsert]
  | cons j rest ih =>
    unfold argInsert
    by_cases h : keyAt keys i < keyAt keys j
    · rw [if_pos h]
      simp [List.mem_cons]
    · rw [if_neg h]
      simp only [List.mem_cons, ih]
      tauto

theorem pairwise_argInsert (keys : Array Nat) (i : Nat) (l : List Nat)
    (hp : l.Pairwise (StableOrd keys)) (hlt : ∀ a ∈ l, a < i) :
    (argInsert keys i l).Pairwise (StableOrd keys) := by
  induction l with
  | nil => simp [argInsert]
  | cons j rest ih =>
    rcases List.pairwise_cons.mp hp with ⟨hj, hrest⟩
    unfold argInsert
    by_cases h : keyAt keys i < keyAt keys j
    · rw [if_pos h]
      refine List.pairwise_cons.mpr ⟨?_, hp⟩
      intro x hx
      rcases List.mem_cons.mp hx with rfl | hx2
      · exact Or.inl h
      · rcases hj x hx2 with hlt2 | ⟨heq, _⟩
        · exact Or.inl (lt_trans h hlt2)
        · exact Or.inl (by rw [← heq]; exact h)
    · rw [if_neg h]
      refine List.pairwise_cons.mpr
        ⟨?_, ih hrest (fun a ha => hlt a (List.mem_cons_of_mem _ ha))⟩
      intro x hx
      rcases (mem_argInsert _ _ _ _).mp hx with rfl | hx2
      · rcases lt_or_eq_of_le (not_lt.mp h) with hlt2 | heq
        · exact Or.inl hlt2
        · exact Or.inr ⟨heq, hlt j (List.mem_cons_self _ _)⟩
      · exact hj x hx2

theorem insertionArgsort_pairwise_aux (keys : Array Nat) :
    ∀ (l acc : List Nat), acc.Pairwise (StableOrd keys) →
      (∀ a ∈ acc, ∀ b ∈ l, a < b) → l.Pairwise (· < ·) →
      (l.foldl (fun acc i => argInsert keys i acc) acc).Pairwise
        (StableOrd keys)
  | [], acc, hacc, _, _ => hacc
  | i :: rest, acc, hacc, hcross, hl => by
    rcases List.pairwise_cons.mp hl with ⟨hi, hrest⟩
    apply insertionArgsort_pairwise_aux keys rest (argInsert keys i acc)
    · exact pairwise_argInsert keys i acc hacc
        (fun a ha => hcross a ha i (List.mem_cons_self _ _))
    · intro a ha b hb
      rcases (mem_argInsert _ _ _ _).mp ha with rfl | ha2
      · exact hi b hb
      · exact hcross a ha2 b (List.mem_cons_of_mem _ hb)
    · exact hrest

/-- The insertion-sort phase arranges the indices 0..n-1 in the stable
order: nondecreasing keys, ties in index order. -/
theorem insertionArgsort_pairwise (keys : Array Nat) (n : Nat) :
    (insertionArgsort keys (List.range n)).Pairwise (StableOrd keys) :=
  insertionArgsort_pairwise_aux keys (List.range n) [] List.Pairwise.nil
    (by simp) (List.pairwise_lt_range n)

theorem mem_insertionArgsort_aux (keys : Array Nat) :
    ∀ (l acc : List Nat) (x : Nat),
      x ∈ l.foldl (fun acc i => argInsert keys i acc) acc ↔ x ∈ l ∨ x ∈ acc
  | [], acc, x => by simp
  | i :: rest, acc, x => by
    have := mem_insertionArgsort_aux keys rest (argInsert keys i acc) x
    rw [List.foldl_cons, this, mem_argInsert]
    simp [List.mem_cons]
    tauto

theorem mem_insertionArgsort (keys : Array Nat) (l : List Nat) (x : Nat) :
    x ∈ insertionArgsort keys l ↔ x ∈ l := by
  unfold insertionArgsort
  rw [mem_insertionArgsort_aux]
  simp

/-- Inserting an index whose key is at least every key in the list appends
it at the end. -/
theorem argInsert_append (keys : Array Nat) (i : Nat) (l : List Nat)
    (h : ∀ j ∈ l, ¬ keyAt keys i < keyAt keys j) :
    argInsert keys i l = l ++ [i] := by
  induction l with
  | nil => rfl
  | cons j rest ih =>
    unfold argInsert
    rw [if_neg (h j (List.mem_cons_self _ _))]
    rw [ih (fun a ha => h a (List.mem_cons_of_mem _ ha))]
    rfl

/-- On already nondecreasing keys the insertion-sort phase is the
identity permutation. -/
theorem insertionArgsort_range_of_sorted (keys : Array Nat) (n : Nat)
    (h : ∀ i j, i < j → j < n → keyAt keys i ≤ keyAt keys j) :
    insertionArgsort keys (List.range n) = List.range n := by
  induction n with
  | zero => rfl
  | succ m ih =>
    unfold insertionArgsort
    rw [List.range_succ, List.foldl_append]
    have hm : List.foldl (fun acc i => argInsert keys i acc) [] (List.range m)
        = List.range m := by
      have := ih (fun i j hij hj => h i j hij (Nat.lt_succ_of_lt hj))
      unfold insertionArgsort at this
      exact this
    rw [hm, List.foldl_cons, List.foldl_nil]
    rw [argInsert_append keys m (List.range m) ?_, ← List.range_succ]
    intro j hj
    exact not_lt.mpr (h j m (List.mem_range.mp hj) (Nat.lt_succ_self m))

/-! ## Taking rows in argsort order -/

theorem filterMap_get?_getElem? {β : Type} (l : List β) (p : List Nat)
    (h : ∀ x ∈ p, x < l.length) (k : Nat) :
    (p.filterMap (fun i => l.get? i))[k]?
      = (p[k]?).bind (fun i => l.get? i) := by
  induction p generalizing k with
  | nil => simp
  | cons x xs ih =>
    have hx : x < l.length := h x (List.mem_cons_self _ _)
    rw [List.filterMap_cons_some (by rw [List.get?_eq_get hx])]
    cases k with
    | zero => simp [List.get?_eq_get hx]
    | succ m =>
      rw [List.getElem?_cons_succ, List.getElem?_cons_succ]
      exact ih (fun a ha => h a (List.mem_cons_of_mem _ ha)) m

theorem filterMap_get?_length {β : Type} (l : List β) (p : List Nat)
    (h : ∀ x ∈ p, x < l.length) :
    (p.filterMap (fun i => l.get? i)).length = p.length := by
  induction p with
  | nil => rfl
  | cons x xs ih =>
    have hx : x < l.length := h x (List.mem_cons_self _ _)
    rw [List.filterMap_cons_some (by rw [List.get?_eq_get hx])]
    simp only [List.length_cons,
      ih (fun a ha => h a (List.mem_cons_of_mem _ ha))]

theorem keyAt_keysOf {α : Type} (E : List (EnrichedRow α)) (x : Nat)
    (h : x < E.length) :
    keyAt ((E.map (fun r => dateKey r.date)).toArray) x
      = dateKey (E.get ⟨x, h⟩).date := by
  have hs : x < ((E.map (fun r => dateKey r.date)).toArray).size := by
    simpa using h
  unfold keyAt
  unfold Array.getD
  rw [dif_pos hs]
  simp

theorem argsortQuicksort_small (keys : Array Nat) (h : keys.size ≤ 16) :
    argsortQuicksort keys = insertionArgsort keys (List.range keys.size) := by
  unfold argsortQuicksort
  rw [if_pos h]

theorem sortValues_small {α : Type} (E : List (EnrichedRow α))
    (hlen : E.length ≤ 16) :
    sortValuesByDate E
      = (insertionArgsort ((E.map (fun r => dateKey r.date)).toArray)
          (List.range E.length)).filterMap (fun i => E.get? i) := by
  simp only [sortValuesByDate]
  rw [argsortQuicksort_small _ (by simpa using hlen)]
  have : ((E.map (fun r => dateKey r.date)).toArray).size = E.length := by
    simp
  rw [this]

/-! ## Stability of the sort on at most 16 rows -/

theorem pairwise_of_getElem? {γ : Type} {R : γ → γ → Prop} (l : List γ)
    (h : l.Pairwise R) (i j : Nat) (a b : γ) (hij : i < j)
    (ha : l[i]? = some a) (hb : l[j]? = some b) : R a b := by
  induction l generalizing i j with
  | nil => cases ha
  | cons x xs ih =>
    rcases List.pairwise_cons.mp h with ⟨hx, hxs⟩
    cases i with
    | zero =>
      cases j with
      | zero => exact absurd hij (lt_irrefl 0)
      | succ m =>
        have ha' : a = x := by
          have := ha
          simp at this
          exact this.symm
        have hb' : xs[m]? = some b := by simpa using hb
        subst ha'
        exact hx b (List.getElem?_mem hb')
    | succ n =>
      cases j with
      | zero => exact absurd hij (by omega)
      | succ m =>
        exact ih hxs n m (Nat.lt_of_succ_lt_succ hij)
          (by simpa using ha) (by simpa using hb)

theorem keyAt_keysOf' {α : Type} (E : List (EnrichedRow α)) (x : Nat)
    (e : EnrichedRow α) (h : E[x]? = some e) :
    keyAt ((E.map (fun r => dateKey r.date)).toArray) x = dateKey e.date := by
  have hx : x < E.length := by
    by_contra hcon
    rw [List.getElem?_eq_none (Nat.le_of_not_lt hcon)] at h
    cases h
  rw [keyAt_keysOf E x hx]
  have : E.get ⟨x, hx⟩ = e := by
    rw [List.getElem?_eq_getElem hx] at h
    exact Option.some_injective _ (by simpa using h)
  rw [this]

theorem stable_sorted_clean_aux {α : Type} [LinearOrderedAddCommGroup α]
    (E : List (EnrichedRow α)) (hlen : E.length ≤ 16)
    (hidx : E.Pairwise (fun a b => a.idx < b.idx))
    (ii jj : Nat) (hij : ii < jj) (ri rj : CleanRow α)
    (hri : (addRunningBalance (sortValuesByDate E))[ii]? = some ri)
    (hrj : (addRunningBalance (sortValuesByDate E))[jj]? = some rj)
    (hdate : ri.date = rj.date) : ri.idx < rj.idx := by
  have hsv := sortValues_small E hlen
  rw [addRB_getElem?_eq] at hri hrj
  rcases Option.map_eq_some'.mp hri with ⟨ei, hei, heic⟩
  rcases Option.map_eq_some'.mp hrj with ⟨ej, hej, hejc⟩
  set keys := (E.map (fun r => dateKey r.date)).toArray with hkeys
  set p := insertionArgsort keys (List.range E.length) with hpdef
  have hpmem : ∀ x ∈ p, x < E.length := by
    intro x hx
    rw [hpdef] at hx
    exact List.mem_range.mp ((mem_insertionArgsort _ _ _).mp hx)
  have hP : p.Pairwise (StableOrd keys) := by
    rw [hpdef]
    exact insertionArgsort_pairwise keys E.length
  rw [hsv, filterMap_get?_getElem? E p hpmem] at hei hej
  rcases Option.bind_eq_some.mp hei with ⟨ai, hai, hbi⟩
  rcases Option.bind_eq_some.mp hej with ⟨aj, haj, hbj⟩
  have hbi' : E[ai]? = some ei := by rw [← List.get?_eq_getElem?]; exact hbi
  have hbj' : E[aj]? = some ej := by rw [← List.get?_eq_getElem?]; exact hbj
  have hSij := pairwise_of_getElem? p hP ii jj ai aj hij hai haj
  have hrdi : ri.date = ei.date := by rw [← heic]
  have hrdj : rj.date = ej.date := by rw [← hejc]
  have hkeq : keyAt keys ai = keyAt keys aj := by
    rw [hkeys, keyAt_keysOf' E ai ei hbi', keyAt_keysOf' E aj ej hbj',
      ← hrdi, ← hrdj, hdate]
  have haij : ai < aj := by
    rcases hSij with hlt | ⟨_, hlt⟩
    · rw [hkeq] at hlt
      exact absurd hlt (lt_irrefl _)
    · exact hlt
  have hEidx := pairwise_of_getElem? E hidx ai aj ei ej haij hbi' hbj'
  have hrii : ri.idx = ei.idx := by rw [← heic]
  have hrji : rj.idx = ej.idx := by rw [← hejc]
  rw [hrii, hrji]
  exact hEidx

/-- With at most 16 filtered rows the whole range is insertion-sorted, and
insertion sort is stable: the clean output preserves the input order of
equal-date rows whenever the enriched rows carry increasing labels. -/
theorem stable_sorted_clean {α : Type} [LinearOrderedAddCommGroup α]
    (E : List (EnrichedRow α)) (hlen : E.length ≤ 16)
    (hidx : E.Pairwise (fun a b => a.idx < b.idx)) :
    StableByDate (addRunningBalance (sortValuesByDate E)) := by
  unfold StableByDate
  intro i j hij hdate
  exact stable_sorted_clean_aux E hlen hidx i.1 j.1 hij _ _
    (by rw [List.getElem?_eq_getElem i.2]; simp [List.get_eq_getElem])
    (by rw [List.getElem?_eq_getElem j.2]; simp [List.get_eq_getElem])
    hdate

theorem idxFrom_pairwise {β : Type} (l : List β) (n : Nat) :
    (idxFrom n l).Pairwise (fun a b => a.1 < b.1) := by
  induction l generalizing n with
  | nil => exact List.Pairwise.nil
  | cons x xs ih =>
    refine List.pairwise_cons.mpr ⟨?_, ih (n + 1)⟩
    intro q hq
    rcases mem_idxFrom _ _ _ hq with ⟨k, _, h1, _⟩
    rw [h1]
    show n < n + 1 + k
    omega

theorem dropna_cell_idx {α : Type} (p : ParsedRow α) (fr : FilteredRow α)
    (h : (match p.date, p.amount, p.type with
      | some dt, some a, some t => some (⟨p.idx, dt, a, t⟩ : FilteredRow α)
      | _, _, _ => none) = some fr) : fr.idx = p.idx := by
  cases hd : p.date with
  | none => rw [hd] at h; cases h
  | some dt =>
    cases ha : p.amount with
    | none => rw [hd, ha] at h; cases h
    | some a =>
      cases ht : p.type with
      | none => rw [hd, ha, ht] at h; cases h
      | some t =>
        rw [hd, ha, ht] at h
        cases h
        rfl

theorem dropnaRows_pairwise_idx {α : Type} (l : List (ParsedRow α))
    (h : l.Pairwise (fun a b => a.idx < b.idx)) :
    (dropnaRows l).Pairwise (fun a b => a.idx < b.idx) := by
  unfold dropnaRows
  rw [List.pairwise_filterMap]
  refine h.imp ?_
  intro a b hab fr hfr fr2 hfr2
  rw [dropna_cell_idx a fr (Option.mem_def.mp hfr),
    dropna_cell_idx b fr2 (Option.mem_def.mp hfr2)]
  exact hab

theorem mkParsedRows_pairwise_idx {α : Type} (rows : List (RawRow α)) :
    (mkParsedRows rows).Pairwise (fun a b => a.idx < b.idx) := by
  simp only [mkParsedRows]
  rw [List.pairwise_map]
  exact (idxFrom_pairwise
    (rows.zip (resolveDates (rows.map (fun r => r.date)))) 0).imp
    (fun hab => hab)

theorem enriched_pairwise_idx {α : Type} [LinearOrderedAddCommGroup α]
    (rows : List (RawRow α)) :
    ((((filteredRows rows).map normalizeType).map signRow).map
      enrichRow).Pairwise (fun a b => a.idx < b.idx) := by
  rw [List.pairwise_map, List.pairwise_map, List.pairwise_map]
  exact (dropnaRows_pairwise_idx _ (mkParsedRows_pairwise_idx rows)).imp
    (fun hab => hab)

/-- C3 (amended): for every input whose filtered record set has at most 16
records, the chronological sort is stable — equal resolved dates keep
their post-filter input order in the clean output.  For larger filtered
sets the sort is numpy's quicksort partition scheme, which reorders
equal-date records (see the counterexample). -/
theorem C3_stable_sort_for_small_filtered_sets {α : Type}
    [LinearOrderedAddCommGroup α] (rows : List (RawRow α))
    (h : (filteredRows rows).length ≤ 16) :
    StableByDate (cleanRows rows) := by
  have hidx := enriched_pairwise_idx rows
  have hlen : ((((filteredRows rows).map normalizeType).map signRow).map
      enrichRow).length ≤ 16 := by
    simpa using h
  exact stable_sorted_clean _ hlen hidx

/-- C3 counterexample: seventeen rows sharing one date.  Seventeen rows
exceed numpy's SMALL_QUICKSORT threshold, so one quicksort partition runs
before the insertion sorts and its exchange loop permutes the equal-keyed
index array; the clean output lists the equal-date rows out of input order
(row labels 0, 14, 13, 12, 11, 10, 9, 15, 8, 6, 5, 4, 3, 2, 1, 7, 16), so
the chronological sort of the pipeline is not stable as claimed. -/
theorem C3_counterexample :
    ¬ StableByDate (cleanRows ((List.range 17).map (fun k =>
      (⟨some "2024-01-05", some ((k : Nat) : ℤ), some "Income"⟩ :
        RawRow ℤ)))) := by
  decide

/-- C3 witness: stability holds on a concrete small input with an equal
pair of dates (three filtered rows, at most 16). -/
theorem C3_witness :
    ((filteredRows [(⟨some "2024-01-05", some (1 : ℤ), some "Income"⟩ : RawRow ℤ),
        ⟨some "2024-01-05", some 2, some "Income"⟩,
        ⟨some "2024-01-04", some 3, some "Income"⟩]).length ≤ 16)
    ∧ StableByDate (cleanRows
        [(⟨some "2024-01-05", some (1 : ℤ), some "Income"⟩ : RawRow ℤ),
         ⟨some "2024-01-05", some 2, some "Income"⟩,
         ⟨some "2024-01-04", some 3, some "Income"⟩]) :=
  ⟨by decide, C3_stable_sort_for_small_filtered_sets
    [(⟨some "2024-01-05", some (1 : ℤ), some "Income"⟩ : RawRow ℤ),
     ⟨some "2024-01-05", some 2, some "Income"⟩,
     ⟨some "2024-01-04", some 3, some "Income"⟩] (by decide)⟩

/-! ## Lemmas for the re-run claim -/

theorem idxFrom_length {β : Type} (l : List β) (n : Nat) :
    (idxFrom n l).length = l.length := by
  induction l generalizing n with
  | nil => rfl
  | cons x xs ih => simp [idxFrom, ih]

theorem idxFrom_map_snd {β γ : Type} (l : List β) (n : Nat) (f : β → γ) :
    (idxFrom n l).map (fun p => f p.2) = l.map f := by
  induction l generalizing n with
  | nil => rfl
  | cons x xs ih => simp [idxFrom, ih]

theorem mem_idxFrom_snd {β : Type} (l : List β) (n : Nat) (p : Nat × β)
    (h : p ∈ idxFrom n l) : p.2 ∈ l := by
  rcases mem_idxFrom _ _ _ h with ⟨k, _, _, h2⟩
  exact List.getElem?_mem h2

theorem idxFrom_pairwise_snd {β : Type} (R : β → β → Prop) :
    ∀ (l : List β) (n : Nat), l.Pairwise R →
      (idxFrom n l).Pairwise (fun a b => R a.2 b.2)
  | [], _, _ => List.Pairwise.nil
  | x :: xs, n, h => by
    rcases List.pairwise_cons.mp h with ⟨hx, hxs⟩
    refine List.pairwise_cons.mpr
      ⟨?_, idxFrom_pairwise_snd R xs (n + 1) hxs⟩
    intro q hq
    exact hx q.2 (mem_idxFrom_snd _ _ _ hq)

theorem argInsert_length (keys : Array Nat) (i : Nat) (l : List Nat) :
    (argInsert keys i l).length = l.length + 1 := by
  induction l with
  | nil => rfl
  | cons j rest ih =>
    unfold argInsert
    by_cases h : keyAt keys i < keyAt keys j
    · rw [if_pos h]
      rfl
    · rw [if_neg h]
      simp [ih]

theorem insertionArgsort_length_aux (keys : Array Nat) :
    ∀ (l acc : List Nat),
      (l.foldl (fun acc i => argInsert keys i acc) acc).length
        = l.length + acc.length
  | [], acc => by simp
  | i :: rest, acc => by
    rw [List.foldl_cons]
    rw [insertionArgsort_length_aux keys rest (argInsert keys i acc)]
    rw [argInsert_length]
    simp
    omega

theorem insertionArgsort_length (keys : Array Nat) (l : List Nat) :
    (insertionArgsort keys l).length = l.length := by
  unfold insertionArgsort
  rw [insertionArgsort_length_aux]
  rfl

theorem sortValues_length_small {α : Type} (E : List (EnrichedRow α))
    (hlen : E.length ≤ 16) :
    (sortValuesByDate E).length = E.length := by
  rw [sortValues_small E hlen]
  rw [filterMap_get?_length E _ (fun x hx =>
    List.mem_range.mp ((mem_insertionArgsort _ _ _).mp hx))]
  rw [insertionArgsort_length, List.length_range]

/-- The date-key column is unchanged by adding the running balance. -/
theorem addRB_map_dateKey {α : Type} [LinearOrderedAddCommGroup α]
    (l : List (EnrichedRow α)) :
    (addRunningBalance l).map (fun r => dateKey r.date)
      = l.map (fun r => dateKey r.date) := by
  apply List.ext_getElem?
  intro i
  rw [List.getElem?_map, List.getElem?_map, addRB_getElem?_eq]
  cases l[i]? <;> rfl

/-- The running-balance column is exactly the cumulative sum of the
signed-amount column. -/
theorem addRB_map_rb {α : Type} [LinearOrderedAddCommGroup α]
    (l : List (EnrichedRow α)) :
    (addRunningBalance l).map (fun r => r.running_balance)
      = cumsumFrom 0 (l.map (fun r => r.signed_amount)) := by
  apply List.ext_getElem?
  intro i
  rw [List.getElem?_map, addRB_getElem?_eq]
  by_cases hi : i < l.length
  · rw [cumsumFrom_getElem? 0 _ i (by simpa using hi)]
    rw [List.getElem?_eq_getElem hi]
    simp
  · rw [List.getElem?_eq_none (Nat.le_of_not_lt hi),
      List.getElem?_eq_none]
    · rfl
    · rw [cumsumFrom_length, List.length_map]
      exact Nat.le_of_not_lt hi

/-- After a run whose filtered set fits in the insertion-sort regime, the
date keys of the sorted rows are nondecreasing. -/
theorem sortValues_keys_sorted {α : Type} (E : List (EnrichedRow α))
    (hlen : E.length ≤ 16) :
    (sortValuesByDate E).Pairwise
      (fun a b => dateKey a.date ≤ dateKey b.date) := by
  rw [sortValues_small E hlen]
  rw [List.pairwise_filterMap]
  set keys := (E.map (fun r => dateKey r.date)).toArray with hkeys
  set p := insertionArgsort keys (List.range E.length) with hpdef
  have hP : p.Pairwise (StableOrd keys) := by
    rw [hpdef]
    exact insertionArgsort_pairwise keys E.length
  refine hP.imp ?_
  intro a b hab e he e2 he2
  have h1 := keyAt_keysOf' E a e
    (by rw [← List.get?_eq_getElem?]; exact Option.mem_def.mp he)
  have h2 := keyAt_keysOf' E b e2
    (by rw [← List.get?_eq_getElem?]; exact Option.mem_def.mp he2)
  rw [← hkeys] at h1 h2
  rcases hab with hlt | ⟨heq, _⟩
  · rw [h1, h2] at hlt
    exact le_of_lt hlt
  · rw [h1, h2] at heq
    exact le_of_eq heq

theorem range_filterMap_get? {β : Type} (l : List β) :
    (List.range l.length).filterMap (fun i => l.get? i) = l := by
  apply List.ext_getElem?
  intro k
  rw [filterMap_get?_getElem? l _ (fun x hx => List.mem_range.mp hx)]
  by_cases hk : k < l.length
  · rw [List.getElem?_eq_getElem (by simpa using hk)]
    simp [List.getElem_range]
  · rw [List.getElem?_eq_none (by simpa using Nat.le_of_not_lt hk),
      List.getElem?_eq_none (Nat.le_of_not_lt hk)]
    rfl

/-- Sorting at most 16 rows whose date keys are already nondecreasing is
the identity. -/
theorem sortValues_id_of_sorted {α : Type} (E : List (EnrichedRow α))
    (hlen : E.length ≤ 16)
    (hs : (E.map (fun r => dateKey r.date)).Pairwise
      (fun a b : Nat => a ≤ b)) :
    sortValuesByDate E = E := by
  set K := E.map (fun r => dateKey r.date) with hK
  have hk : ∀ i j, i < j → j < E.length →
      keyAt K.toArray i ≤ keyAt K.toArray j := by
    intro i j hij hj
    have hi : i < E.length := lt_trans hij hj
    have h1 := keyAt_keysOf' E i (E.get ⟨i, hi⟩)
      (by rw [List.getElem?_eq_getElem hi]; simp [List.get_eq_getElem])
    have h2 := keyAt_keysOf' E j (E.get ⟨j, hj⟩)
      (by rw [List.getElem?_eq_getElem hj]; simp [List.get_eq_getElem])
    have hmi : K[i]? = some (dateKey (E.get ⟨i, hi⟩).date) := by
      rw [hK, List.getElem?_map, List.getElem?_eq_getElem hi]
      simp [List.get_eq_getElem]
    have hmj : K[j]? = some (dateKey (E.get ⟨j, hj⟩).date) := by
      rw [hK, List.getElem?_map, List.getElem?_eq_getElem hj]
      simp [List.get_eq_getElem]
    have h3 := pairwise_of_getElem? K hs i j
      (dateKey (E.get ⟨i, hi⟩).date) (dateKey (E.get ⟨j, hj⟩).date) hij
      hmi hmj
    rw [← hK] at h1 h2
    rw [h1, h2]
    exact h3
  rw [sortValues_small E hlen]
  rw [insertionArgsort_range_of_sorted _ _ hk]
  exact range_filterMap_get? E

theorem dropnaRows_rerunParsed_aux {α : Type} :
    ∀ (l : List (CleanRow α)) (n : Nat),
      dropnaRows ((idxFrom n l).map (fun p =>
        (⟨p.1, some p.2.date, some p.2.signed_amount, some "Income"⟩ :
          ParsedRow α)))
      = (idxFrom n l).map (fun p =>
          (⟨p.1, p.2.date, p.2.signed_amount, "Income"⟩ : FilteredRow α))
  | [], _ => rfl
  | x :: xs, n => by
    simp only [idxFrom, List.map_cons]
    show (⟨n, x.date, x.signed_amount, "Income"⟩ : FilteredRow α) ::
        dropnaRows ((idxFrom (n + 1) xs).map (fun p =>
          (⟨p.1, some p.2.date, some p.2.signed_amount, some "Income"⟩ :
            ParsedRow α)))
      = _
    exact congrArg _ (dropnaRows_rerunParsed_aux xs (n + 1))

/-- The re-run's filter drops nothing: every cell of the re-fed clean
output is present. -/
theorem dropnaRows_rerunParsed {α : Type} (l : List (CleanRow α)) :
    dropnaRows (rerunParsed l)
      = (idxFrom 0 l).map (fun p =>
          (⟨p.1, p.2.date, p.2.signed_amount, "Income"⟩ : FilteredRow α)) := by
  unfold rerunParsed
  exact dropnaRows_rerunParsed_aux l 0

/-- Shape of the re-run's enriched rows: fresh labels, the first run's
resolved dates, the first run's signed amounts as amounts, type "Income"
(unchanged by normalization), absolute values as new signed amounts. -/
theorem rerun_enriched_eq {α : Type} [LinearOrderedAddCommGroup α]
    (l : List (CleanRow α)) :
    (((dropnaRows (rerunParsed l)).map normalizeType).map signRow).map
      enrichRow
    = (idxFrom 0 l).map (fun p =>
        (⟨p.1, p.2.date, p.2.signed_amount, "Income",
          |p.2.signed_amount|, p.2.date.y, p.2.date.m,
          monthName p.2.date.m, dayName p.2.date⟩ : EnrichedRow α)) := by
  rw [dropnaRows_rerunParsed]
  rw [List.map_map, List.map_map, List.map_map]
  rfl

/-- The date keys of the re-run's enriched rows are the date keys of the
first run's clean rows. -/
theorem rerun_map_key {α : Type} [LinearOrderedAddCommGroup α] :
    ∀ (l : List (CleanRow α)) (n : Nat),
      ((idxFrom n l).map (fun p =>
        (⟨p.1, p.2.date, p.2.signed_amount, "Income",
          |p.2.signed_amount|, p.2.date.y, p.2.date.m,
          monthName p.2.date.m, dayName p.2.date⟩ : EnrichedRow α))).map
        (fun r => dateKey r.date)
      = l.map (fun r => dateKey r.date)
  | [], _ => rfl
  | x :: xs, n => by
    simp only [idxFrom, List.map_cons]
    exact congrArg _ (rerun_map_key xs (n + 1))

/-- The signed amounts of the re-run's enriched rows are the absolute
values of the first run's signed amounts. -/
theorem rerun_map_sa {α : Type} [LinearOrderedAddCommGroup α] :
    ∀ (l : List (CleanRow α)) (n : Nat),
      ((idxFrom n l).map (fun p =>
        (⟨p.1, p.2.date, p.2.signed_amount, "Income",
          |p.2.signed_amount|, p.2.date.y, p.2.date.m,
          monthName p.2.date.m, dayName p.2.date⟩ : EnrichedRow α))).map
        (fun r => r.signed_amount)
      = l.map (fun r => |r.signed_amount|)
  | [], _ => rfl
  | x :: xs, n => by
    simp only [idxFrom, List.map_cons]
    exact congrArg _ (rerun_map_sa xs (n + 1))

/-- C7 (amended): re-running the pipeline on its own clean output, with
signed_amount fed in as amount and every row treated as non-expense,
reproduces the same running_balance values provided no clean record is an
expense (otherwise the re-run signer takes absolute values and flips the
negative signed amounts — see the counterexample) and the filtered set has
at most 16 records (so that both sorts are the stable insertion sort and
the already sorted re-run input keeps its order). -/
theorem C7_rerun_reproduces_balances {α : Type} [LinearOrderedAddCommGroup α]
    (rows : List (RawRow α))
    (hexp : ∀ r ∈ cleanRows rows, r.type ≠ "Expense")
    (hlen : (filteredRows rows).length ≤ 16) :
    (rerunClean rows).map (fun r => r.running_balance)
      = (cleanRows rows).map (fun r => r.running_balance) := by
  have hElen : ((((filteredRows rows).map normalizeType).map signRow).map
      enrichRow).length ≤ 16 := by simpa using hlen
  have hnn : ∀ r ∈ cleanRows rows, |r.signed_amount| = r.signed_amount := by
    intro r hr
    rcases mem_cleanFromParsed _ _ hr with ⟨f, _, _, _, _, _, hsgn⟩
    rw [if_neg (hexp r hr)] at hsgn
    rw [hsgn, abs_abs]
  have hCr : cleanRows rows = addRunningBalance (sortValuesByDate
      ((((filteredRows rows).map normalizeType).map signRow).map
        enrichRow)) := rfl
  have hSsorted := sortValues_keys_sorted _ hElen
  have hCkeysList : ((cleanRows rows).map (fun r => dateKey r.date)).Pairwise
      (fun a b : Nat => a ≤ b) := by
    have h1 := List.pairwise_map.mpr hSsorted
    rw [← addRB_map_dateKey] at h1
    rw [← hCr] at h1
    exact h1
  have hClen : (cleanRows rows).length ≤ 16 := by
    have h1 : (cleanRows rows).length = (filteredRows rows).length := by
      rw [hCr, addRB_length, sortValues_length_small _ hElen]
      simp [List.length_map]
    rw [h1]
    exact hlen
  have hE2 := rerun_enriched_eq (cleanRows rows)
  have hE2len : ((idxFrom 0 (cleanRows rows)).map (fun p =>
      (⟨p.1, p.2.date, p.2.signed_amount, "Income",
        |p.2.signed_amount|, p.2.date.y, p.2.date.m,
        monthName p.2.date.m, dayName p.2.date⟩ : EnrichedRow α))).length
      ≤ 16 := by
    rw [List.length_map, idxFrom_length]
    exact hClen
  have hE2sorted : (((idxFrom 0 (cleanRows rows)).map (fun p =>
      (⟨p.1, p.2.date, p.2.signed_amount, "Income",
        |p.2.signed_amount|, p.2.date.y, p.2.date.m,
        monthName p.2.date.m, dayName p.2.date⟩ : EnrichedRow α))).map
      (fun r => dateKey r.date)).Pairwise (fun a b : Nat => a ≤ b) := by
    rw [rerun_map_key (cleanRows rows) 0]
    exact hCkeysList
  have hsortid := sortValues_id_of_sorted _ hE2len hE2sorted
  have hRC : rerunClean rows
      = addRunningBalance ((idxFrom 0 (cleanRows rows)).map (fun p =>
        (⟨p.1, p.2.date, p.2.signed_amount, "Income",
          |p.2.signed_amount|, p.2.date.y, p.2.date.m,
          monthName p.2.date.m, dayName p.2.date⟩ : EnrichedRow α))) := by
    show addRunningBalance (sortValuesByDate ((((dropnaRows (rerunParsed
      (cleanRows rows))).map normalizeType).map signRow).map enrichRow)) = _
    rw [hE2, hsortid]
  rw [hRC]
  conv_rhs => rw [hCr]
  rw [addRB_map_rb, addRB_map_rb]
  refine congrArg (cumsumFrom (0 : α)) ?_
  rw [rerun_map_sa (cleanRows rows) 0]
  have habs : (cleanRows rows).map (fun r => |r.signed_amount|)
      = (cleanRows rows).map (fun r => r.signed_amount) :=
    List.map_congr_left hnn
  rw [habs]
  conv_lhs => rw [hCr]
  rw [addRB_map_signed]

/-- C7 counterexample: one expense row.  The first run's balance column is
[-40]; the re-run feeds signed_amount -40 in as amount with type treated
as non-expense, so the signer takes the absolute value and the re-run's
balance column is [40] — re-running does not reproduce running_balance. -/
theorem C7_counterexample :
    (rerunClean [(⟨some "2024-01-05", some (40 : ℤ), some "Expense"⟩ :
        RawRow ℤ)]).map (fun r => r.running_balance)
    ≠ (cleanRows [(⟨some "2024-01-05", some (40 : ℤ), some "Expense"⟩ :
        RawRow ℤ)]).map (fun r => r.running_balance) := by
  decide

/-- C7 witness: the re-run reproduces the balances on a concrete
expense-free two-row input. -/
theorem C7_witness :
    (∀ r ∈ cleanRows [(⟨some "2024-01-05", some (100 : ℤ), some "Income"⟩ :
        RawRow ℤ), ⟨some "2024-01-03", some 7, some "Income"⟩],
      r.type ≠ "Expense")
    ∧ ((filteredRows [(⟨some "2024-01-05", some (100 : ℤ), some "Income"⟩ :
        RawRow ℤ), ⟨some "2024-01-03", some 7, some "Income"⟩]).length ≤ 16)
    ∧ (rerunClean [(⟨some "2024-01-05", some (100 : ℤ), some "Income"⟩ :
        RawRow ℤ), ⟨some "2024-01-03", some 7, some "Income"⟩]).map
          (fun r => r.running_balance)
      = (cleanRows [(⟨some "2024-01-05", some (100 : ℤ), some "Income"⟩ :
          RawRow ℤ), ⟨some "2024-01-03", some 7, some "Income"⟩]).map
          (fun r => r.running_balance) :=
  ⟨by decide, by decide, C7_rerun_reproduces_balances
    [(⟨some "2024-01-05", some (100 : ℤ), some "Income"⟩ : RawRow ℤ),
     ⟨some "2024-01-03", some 7, some "Income"⟩] (by decide) (by decide)⟩
